import Mathlib

/-!
Verification of the whisper-gui core against its specification.

The development shallowly embeds the two core components of the
repository:

* the process event pipeline of `src/src-tauri/src/whisper/cli.rs`
  (`run_transcription`): the background task's loop over the child
  process's command events is embedded as the pure function
  `pipelineLoop` from the list of received command events to the list
  of transcription events sent on the channel; argument construction
  is embedded as `buildArgs`;

* the download manager of `src/src-tauri/src/downloader/models.rs`
  (`get_available_models`, `get_models_dir`, `get_model_path`,
  `download_model`): paths are lists of characters, the filesystem is
  an association list from paths to file contents, and the effects of
  a download attempt (directory creation, HTTP request, file
  creation, chunk writes, progress callbacks, flush, rename) are
  captured in an explicit action trace.  Every fallible external step
  (directory creation, connection, HTTP status, file creation, chunk
  reads, chunk writes, flush, rename) is an oracle supplied by the
  `Env` record, so `downloadModel` covers every terminating execution
  of the source function.
-/

set_option maxRecDepth 8192

/-! Part 1: the process event pipeline (src/src-tauri/src/whisper/cli.rs). -/

/-- Command events received from the spawned child process, mirroring
the `tauri_plugin_shell::process::CommandEvent` cases the source loop
matches on.  Stdout and stderr lines carry their lossily decoded text;
`other` stands for the remaining variants, which the source ignores
(`_ => {}`). -/
inductive CmdEvent where
  | stdout (line : String)
  | stderr (line : String)
  | terminated (code : Option Int)
  | other
deriving DecidableEq

/-- Transcription events sent on the channel, mirroring the source's
`TranscriptionEvent` enum (`Stdout`, `Stderr`, `Completed`, `Error`). -/
inductive TransEvent where
  | stdout (line : String)
  | stderr (line : String)
  | completed (fullOutput : String)
  | error (message : String)
deriving DecidableEq

/-- Terminal events are `Completed` and `Error` (the latter is what the
specification calls `Failed`). -/
def TransEvent.isTerminal : TransEvent → Bool
  | .completed _ => true
  | .error _ => true
  | _ => false

/-- Rust's `{:?}` rendering of an `Option<i32>` exit code, used by the
source in `format!("Process exited with code: {:?}", payload.code)`. -/
def reprOptCode : Option Int → String
  | none => "None"
  | some n => "Some(" ++ toString n ++ ")"

/-- Message of the `Error` event emitted when the child exits with a
code other than `Some(0)`. -/
def terminatedMessage (code : Option Int) : String :=
  "Process exited with code: " ++ reprOptCode code

/-- Embedding of the background task's loop in `run_transcription`
(src/src-tauri/src/whisper/cli.rs, lines 51-84).  `fullOutput` is the
`full_output` accumulator; the result is the list of transcription
events sent on the channel, in order.  On a `Terminated` event the
loop sends the single terminal event and breaks, so later events in
the input list are never processed; when the input ends the task ends
with the channel sender dropped, so the output list ends as well. -/
def pipelineLoop (fullOutput : String) : List CmdEvent → List TransEvent
  | [] => []
  | .stdout l :: rest =>
      .stdout l :: pipelineLoop (fullOutput ++ l ++ "\n") rest
  | .stderr l :: rest =>
      .stderr l :: pipelineLoop fullOutput rest
  | .terminated c :: _ =>
      if c = some 0 then [.completed fullOutput] else [.error (terminatedMessage c)]
  | .other :: rest => pipelineLoop fullOutput rest

/-- Events sent for one invocation: the loop starts with an empty
`full_output` buffer. -/
def pipelineOutput (events : List CmdEvent) : List TransEvent :=
  pipelineLoop "" events

/-- Per-event forwarding of a line event (the non-terminal part of the
loop body): a stdout chunk becomes `Stdout`, a stderr chunk becomes
`Stderr`, other events produce nothing. -/
def lineEvent : CmdEvent → Option TransEvent
  | .stdout l => some (.stdout l)
  | .stderr l => some (.stderr l)
  | _ => none

/-- Texts of the standard-output events of a command event list, in
emission order. -/
def stdoutTexts (events : List CmdEvent) : List String :=
  events.filterMap fun e =>
    match e with
    | .stdout l => some l
    | _ => none

/-- Concatenation of a list of lines, each line terminated by the
newline the source's `full_output.push('\n')` appends after it. -/
def concatLines : List String → String
  | [] => ""
  | l :: ls => l ++ "\n" ++ concatLines ls

/-- Terminal event produced for a given exit code and accumulated
stdout buffer (lines 66-78 of the source file). -/
def terminalEvent (code : Option Int) (fullOutput : String) : TransEvent :=
  if code = some 0 then .completed fullOutput else .error (terminatedMessage code)

/-- Recognizer for the `Terminated` command event. -/
def isTerminatedEvent : CmdEvent → Bool
  | .terminated _ => true
  | _ => false

theorem concatLines_stdout (l : String) (evs : List CmdEvent) :
    concatLines (stdoutTexts (CmdEvent.stdout l :: evs)) =
      l ++ "\n" ++ concatLines (stdoutTexts evs) := by
  simp [stdoutTexts, concatLines]

theorem stdoutTexts_skip (e : CmdEvent) (evs : List CmdEvent)
    (h : ∀ l, e ≠ CmdEvent.stdout l) :
    stdoutTexts (e :: evs) = stdoutTexts evs := by
  cases e with
  | stdout l => exact absurd rfl (h l)
  | stderr l => simp [stdoutTexts]
  | terminated c => simp [stdoutTexts]
  | other => simp [stdoutTexts]

/-- Core structure of one pipeline run: processing a terminated-free
prefix `pre` followed by a `Terminated` event yields the forwarded
line events of `pre` followed by exactly the terminal event, computed
from the accumulator extended by the stdout texts of `pre`; events
after the termination are never processed. -/
theorem pipelineLoop_split (c : Option Int) (post : List CmdEvent) :
    ∀ (pre : List CmdEvent) (acc : String),
      (∀ e ∈ pre, isTerminatedEvent e = false) →
      pipelineLoop acc (pre ++ CmdEvent.terminated c :: post) =
        pre.filterMap lineEvent ++
          [terminalEvent c (acc ++ concatLines (stdoutTexts pre))]
  | [], acc, _ => by
      simp only [List.nil_append, pipelineLoop, stdoutTexts, List.filterMap_nil,
        concatLines, String.append_empty, terminalEvent]
      split <;> rfl
  | .stdout l :: pre, acc, h => by
      have ih := pipelineLoop_split c post pre (acc ++ l ++ "\n")
        (fun e he => h e (List.mem_cons_of_mem _ he))
      simp only [List.cons_append, pipelineLoop, List.append_eq, concatLines_stdout,
        List.filterMap_cons, lineEvent]
      rw [ih]
      simp [String.append_assoc]
  | .stderr l :: pre, acc, h => by
      have ih := pipelineLoop_split c post pre acc
        (fun e he => h e (List.mem_cons_of_mem _ he))
      have hs : stdoutTexts (CmdEvent.stderr l :: pre) = stdoutTexts pre := by
        simp [stdoutTexts]
      simp only [List.cons_append, pipelineLoop, List.append_eq, List.filterMap_cons, lineEvent, hs]
      rw [ih]
  | .terminated c' :: pre, acc, h => by
      have := h (.terminated c') (List.mem_cons_self _ _)
      simp [isTerminatedEvent] at this
  | .other :: pre, acc, h => by
      have ih := pipelineLoop_split c post pre acc
        (fun e he => h e (List.mem_cons_of_mem _ he))
      have hs : stdoutTexts (CmdEvent.other :: pre) = stdoutTexts pre := by
        simp [stdoutTexts]
      simp only [List.cons_append, pipelineLoop, List.append_eq, List.filterMap_cons, lineEvent, hs]
      rw [ih]

theorem lineEvent_not_terminal (l : List CmdEvent) :
    (l.filterMap lineEvent).countP TransEvent.isTerminal = 0 := by
  rw [List.countP_eq_zero]
  intro t ht
  rcases List.mem_filterMap.mp ht with ⟨e, _, he⟩
  cases e <;> simp [lineEvent] at he <;> simp [← he, TransEvent.isTerminal]

theorem terminalEvent_isTerminal (c : Option Int) (s : String) :
    (terminalEvent c s).isTerminal = true := by
  unfold terminalEvent
  split <;> simp [TransEvent.isTerminal]

/-- Substring test: `containsSeq pat s` holds when `pat` occurs
contiguously inside `s`. -/
def isSeqAt : List Char → List Char → Bool
  | [], _ => true
  | _ :: _, [] => false
  | a :: asx, b :: bs => a = b && isSeqAt asx bs

/-- Occurrence of `pat` anywhere inside `s`. -/
def containsSeq (pat : List Char) : List Char → Bool
  | [] => isSeqAt pat []
  | s :: rest => isSeqAt pat (s :: rest) || containsSeq pat rest

/-- Argument vector passed to the whisper-cli child process
(src/src-tauri/src/whisper/cli.rs, lines 24-38): model path, audio
path and output format always, then `-l lang` exactly when a language
was supplied and differs from the sentinel `"auto"`. -/
def buildArgs (modelPath audioPath outputFormat : String)
    (language : Option String) : List String :=
  let args := ["-m", modelPath, "-f", audioPath, "-o", outputFormat]
  match language with
  | some lang => if lang ≠ "auto" then args ++ ["-l", lang] else args
  | none => args

/-- Language arguments appended by `buildArgs` after the always-present
six arguments. -/
def langArgs : Option String → List String
  | some lang => if lang ≠ "auto" then ["-l", lang] else []
  | none => []

/-- C1: for every invocation whose child process terminates — the
received command events are a terminated-free prefix `pre`, then the
`Terminated` event, then arbitrary further events `post` — the events
sent on the channel are exactly the forwarded line events of `pre`
followed by one terminal event (`Completed` or `Error`, the source's
name for `Failed`): the terminal event is delivered exactly once, it
is the last event delivered, nothing is produced after it (events in
`post` are never processed because the task breaks out of its loop),
and the finished task drops the channel's sending side, which the
finiteness of the output list models. -/
theorem c1_single_terminal_event_is_last (pre post : List CmdEvent) (c : Option Int)
    (h : ∀ e ∈ pre, isTerminatedEvent e = false) :
    pipelineOutput (pre ++ CmdEvent.terminated c :: post) =
        pre.filterMap lineEvent ++
          [terminalEvent c (concatLines (stdoutTexts pre))] ∧
      (pipelineOutput (pre ++ CmdEvent.terminated c :: post)).countP
          TransEvent.isTerminal = 1 ∧
      (pipelineOutput (pre ++ CmdEvent.terminated c :: post)).getLast? =
        some (terminalEvent c (concatLines (stdoutTexts pre))) ∧
      (terminalEvent c (concatLines (stdoutTexts pre))).isTerminal = true := by
  have hsplit := pipelineLoop_split c post pre "" h
  rw [String.empty_append] at hsplit
  rw [pipelineOutput, hsplit]
  refine ⟨rfl, ?_, ?_, ?_⟩
  · rw [List.countP_append, lineEvent_not_terminal]
    simp [List.countP_cons, terminalEvent_isTerminal]
  · exact List.getLast?_concat _
  · exact terminalEvent_isTerminal c _

theorem c1_single_terminal_event_is_last_witness :
    pipelineOutput [CmdEvent.stdout "a", CmdEvent.stderr "b",
        CmdEvent.terminated (some 0)] =
        [TransEvent.stdout "a", TransEvent.stderr "b", TransEvent.completed "a\n"] ∧
      (pipelineOutput [CmdEvent.stdout "a", CmdEvent.stderr "b",
          CmdEvent.terminated (some 0)]).countP TransEvent.isTerminal = 1 ∧
      (pipelineOutput [CmdEvent.stdout "a", CmdEvent.stderr "b",
          CmdEvent.terminated (some 0)]).getLast? =
        some (TransEvent.completed "a\n") := by
  have h := c1_single_terminal_event_is_last
    [CmdEvent.stdout "a", CmdEvent.stderr "b"] [] (some 0) (by decide)
  exact ⟨h.1, h.2.1, h.2.2.1⟩

/-- C2: for every run whose child exits with code exactly 0, the single
terminal event is `Completed`, it is the last event delivered, and its
payload is the concatenation of all standard-output lines in emission
order (each line newline-terminated, as the source's accumulation
buffer pushes `'\n'` after each line); the payload is a function of
the standard-output texts alone, so standard-error lines are never
appended to the buffer and never appear in the payload. -/
theorem c2_completed_payload_is_stdout_concat (pre post : List CmdEvent)
    (h : ∀ e ∈ pre, isTerminatedEvent e = false) :
    pipelineOutput (pre ++ CmdEvent.terminated (some 0) :: post) =
        pre.filterMap lineEvent ++
          [TransEvent.completed (concatLines (stdoutTexts pre))] ∧
      (pipelineOutput (pre ++ CmdEvent.terminated (some 0) :: post)).countP
          TransEvent.isTerminal = 1 ∧
      (pipelineOutput (pre ++ CmdEvent.terminated (some 0) :: post)).getLast? =
        some (TransEvent.completed (concatLines (stdoutTexts pre))) := by
  have hsplit := pipelineLoop_split (some 0) post pre "" h
  rw [String.empty_append] at hsplit
  have hterm : terminalEvent (some 0) (concatLines (stdoutTexts pre)) =
      TransEvent.completed (concatLines (stdoutTexts pre)) := by
    simp [terminalEvent]
  rw [pipelineOutput, hsplit, hterm]
  refine ⟨rfl, ?_, List.getLast?_concat _⟩
  rw [List.countP_append, lineEvent_not_terminal]
  simp [List.countP_cons, TransEvent.isTerminal]

theorem c2_completed_payload_is_stdout_concat_witness :
    pipelineOutput [CmdEvent.stdout "x", CmdEvent.stderr "oops",
        CmdEvent.stdout "y", CmdEvent.terminated (some 0)] =
        [TransEvent.stdout "x", TransEvent.stderr "oops", TransEvent.stdout "y",
          TransEvent.completed "x\ny\n"] ∧
      (pipelineOutput [CmdEvent.stdout "x", CmdEvent.stderr "oops",
          CmdEvent.stdout "y", CmdEvent.terminated (some 0)]).getLast? =
        some (TransEvent.completed "x\ny\n") := by
  have h := c2_completed_payload_is_stdout_concat
    [CmdEvent.stdout "x", CmdEvent.stderr "oops", CmdEvent.stdout "y"] []
    (by decide)
  exact ⟨h.1, h.2.2⟩

/-- C3, counterexample: when the exit code cannot be determined the
source formats `payload.code` with `{:?}`, producing the message
`"Process exited with code: None"`, which does not name `"unknown"`
anywhere, contradicting the claim's wording. -/
theorem c3_counterexample_unknown_not_named :
    pipelineOutput [CmdEvent.terminated none] =
        [TransEvent.error "Process exited with code: None"] ∧
      containsSeq "unknown".toList
        "Process exited with code: None".toList = false := by
  exact ⟨rfl, rfl⟩

/-- C3, amended: for every run whose child terminates with a code other
than `Some(0)`, the single terminal event is `Error` (the spec's
`Failed`), it is the last event delivered, and its message is
`"Process exited with code: "` followed by the Debug rendering of the
code — `Some(N)` for a known non-zero code N (identifying N) and
`None` (not the word `"unknown"`) when the code could not be
determined, e.g. when the process was killed by a signal. -/
theorem c3_failed_event_names_exit_code (pre post : List CmdEvent) (c : Option Int)
    (h : ∀ e ∈ pre, isTerminatedEvent e = false) (hc : c ≠ some 0) :
    pipelineOutput (pre ++ CmdEvent.terminated c :: post) =
        pre.filterMap lineEvent ++
          [TransEvent.error ("Process exited with code: " ++ reprOptCode c)] ∧
      (pipelineOutput (pre ++ CmdEvent.terminated c :: post)).countP
          TransEvent.isTerminal = 1 ∧
      (pipelineOutput (pre ++ CmdEvent.terminated c :: post)).getLast? =
        some (TransEvent.error ("Process exited with code: " ++ reprOptCode c)) ∧
      (∀ n : Int, c = some n → reprOptCode c = "Some(" ++ toString n ++ ")") ∧
      (c = none → reprOptCode c = "None") := by
  have hsplit := pipelineLoop_split c post pre "" h
  rw [String.empty_append] at hsplit
  have hterm : terminalEvent c (concatLines (stdoutTexts pre)) =
      TransEvent.error ("Process exited with code: " ++ reprOptCode c) := by
    rw [terminalEvent, if_neg hc, terminatedMessage]
  rw [pipelineOutput, hsplit, hterm]
  refine ⟨rfl, ?_, List.getLast?_concat _, ?_, ?_⟩
  · rw [List.countP_append, lineEvent_not_terminal]
    simp [List.countP_cons, TransEvent.isTerminal]
  · intro n hn; rw [hn, reprOptCode]
  · intro hn; rw [hn, reprOptCode]

theorem c3_failed_event_names_exit_code_witness :
    pipelineOutput [CmdEvent.stderr "boom", CmdEvent.terminated (some 2)] =
        [TransEvent.stderr "boom",
          TransEvent.error "Process exited with code: Some(2)"] ∧
      (pipelineOutput [CmdEvent.stderr "boom",
          CmdEvent.terminated (some 2)]).getLast? =
        some (TransEvent.error "Process exited with code: Some(2)") := by
  have h := c3_failed_event_names_exit_code
    [CmdEvent.stderr "boom"] [] (some 2) (by decide) (by decide)
  exact ⟨h.1, h.2.2.1⟩

/-- C7: the child-process argument list always starts with the model
path (after `-m`), the audio path (after `-f`) and the requested
output format (after `-o`); it ends with `-l lang` exactly when a
language `lang` was supplied and it is not the sentinel `"auto"`, and
the flag is omitted (leaving the tool to auto-detect) when no language
was supplied or the sentinel was. -/
theorem c7_argument_construction (modelPath audioPath outputFormat : String)
    (language : Option String) :
    buildArgs modelPath audioPath outputFormat language =
        ["-m", modelPath, "-f", audioPath, "-o", outputFormat] ++
          langArgs language ∧
      (langArgs language ≠ [] ↔ ∃ lang, language = some lang ∧ lang ≠ "auto") ∧
      (∀ lang, language = some lang → lang ≠ "auto" →
        langArgs language = ["-l", lang]) ∧
      (language = none ∨ language = some "auto" → langArgs language = []) := by
  refine ⟨?_, ?_, ?_, ?_⟩
  · cases language with
    | none => rfl
    | some lang =>
        by_cases hl : lang = "auto" <;> simp [buildArgs, langArgs, hl]
  · cases language with
    | none => simp [langArgs]
    | some lang =>
        by_cases hl : lang = "auto" <;> simp [langArgs, hl]
  · intro lang hl hne
    subst hl
    simp [langArgs, hne]
  · intro hl
    rcases hl with hl | hl <;> subst hl <;> simp [langArgs]

/-! Part 2: the download manager (src/src-tauri/src/downloader/models.rs).
Paths are lists of characters; `dirs::data_dir()` (or its `"."`
fallback) is the `dataDir` parameter.  The filesystem is an
association list from paths to file contents (a `none` value records
a deletion shadowing an older entry); directories are not tracked
since no claim concerns them.  Every fallible external step of
`download_model` is an oracle in `Env`: `none`/a success status means
the step succeeds, `some msg` means it fails with the io error text
`msg`, so the embedding covers every terminating execution of the
source function. -/

abbrev Str := List Char

/-- Descriptor of one catalog entry, mirroring the source's
`ModelInfo` struct. -/
structure ModelInfo where
  name : String
  display_name : String
  size_mb : Nat
  description : String
  url : String
deriving DecidableEq

/-- Static model catalog, copied field-for-field from
`get_available_models` (lines 17-62 of the source file). -/
def getAvailableModels : List ModelInfo :=
  [ { name := "tiny", display_name := "Tiny", size_mb := 75,
      description := "Fastest, lowest accuracy",
      url := "https://huggingface.co/ggerganov/whisper.cpp/resolve/main/ggml-tiny.bin" },
    { name := "base", display_name := "Base", size_mb := 148,
      description := "Fast, good for simple audio",
      url := "https://huggingface.co/ggerganov/whisper.cpp/resolve/main/ggml-base.bin" },
    { name := "small", display_name := "Small", size_mb := 488,
      description := "Balanced speed and accuracy",
      url := "https://huggingface.co/ggerganov/whisper.cpp/resolve/main/ggml-small.bin" },
    { name := "medium", display_name := "Medium", size_mb := 1500,
      description := "High accuracy, slower",
      url := "https://huggingface.co/ggerganov/whisper.cpp/resolve/main/ggml-medium.bin" },
    { name := "large-v3", display_name := "Large v3", size_mb := 3000,
      description := "Best accuracy, slowest",
      url := "https://huggingface.co/ggerganov/whisper.cpp/resolve/main/ggml-large-v3.bin" },
    { name := "large-v3-turbo", display_name := "Large v3 Turbo", size_mb := 1600,
      description := "Fast and accurate",
      url := "https://huggingface.co/ggerganov/whisper.cpp/resolve/main/ggml-large-v3-turbo.bin" } ]

/-- Joining of a relative component onto a path, as `PathBuf::join`
does for the relative components used here. -/
def pathJoin (p : Str) (q : Str) : Str := p ++ '/' :: q

/-- Embedding of `get_models_dir`: the per-application data directory
`dataDir` joined with `"com.whisper-gui.app"` and `"models"`. -/
def getModelsDir (dataDir : Str) : Str :=
  pathJoin (pathJoin dataDir "com.whisper-gui.app".toList) "models".toList

/-- Embedding of `get_model_path` (lines 71-73): the models directory
joined with `format!("ggml-{}.bin", model_name)`. -/
def getModelPath (dataDir : Str) (modelName : String) : Str :=
  pathJoin (getModelsDir dataDir)
    ("ggml-".toList ++ modelName.toList ++ ".bin".toList)

/-- Splitting of a list at its last occurrence of `sep`: the first
component is everything up to and including that occurrence (empty
when `sep` does not occur), the second everything after it. -/
def splitLast (sep : Char) (l : Str) : Str × Str :=
  ((l.reverse.dropWhile (fun ch => ch ≠ sep)).reverse,
   (l.reverse.takeWhile (fun ch => ch ≠ sep)).reverse)

/-- Embedding of Rust's `Path::with_extension` for the paths arising
here: the file name is the part after the last `'/'`; its extension
is the part after its last `'.'` provided the stem before that dot is
nonempty (a lone leading dot marks no extension); the extension is
replaced by (or, absent one, extended with) `'.' ++ newExt`.  The
source applies it as `model_path.with_extension("bin.tmp")` on line
99. -/
def rustWithExtension (p : Str) (newExt : Str) : Str :=
  let dir := (splitLast '/' p).1
  let fname := (splitLast '/' p).2
  let stemDot := (splitLast '.' fname).1
  let base := if stemDot.length ≤ 1 then fname else stemDot.dropLast
  dir ++ base ++ '.' :: newExt

/-- Filesystem as an association list; a later (leftward) entry
shadows earlier ones, `none` records an absent (deleted) path. -/
abbrev FS := List (Str × Option (List Nat))

/-- Content at a path, if present. -/
def fsGet : FS → Str → Option (List Nat)
  | [], _ => none
  | (p, v) :: rest, q => if q = p then v else fsGet rest q

/-- Creation or truncating overwrite of a file at `p`. -/
def fsSet (fs : FS) (p : Str) (v : Option (List Nat)) : FS := (p, v) :: fs

/-- Atomic rename: `dst` receives the content at `src`, `src`
disappears. -/
def fsRename (fs : FS) (src dst : Str) : FS :=
  fsSet (fsSet fs dst (fsGet fs src)) src none

/-- One item of the response body stream: either a transport error
(`chunk.map_err(...)` fails) or a chunk of bytes whose write to the
temporary file succeeds (`writeErr = none`) or fails with the given
io error. -/
inductive ChunkStep where
  | netErr (msg : String)
  | chunk (bytes : List Nat) (writeErr : Option String)
deriving DecidableEq

/-- Observable actions of one download attempt, in order: directory
creation, HTTP GET, creation of the temporary file, chunk writes,
synchronous progress callbacks, flush, final rename. -/
inductive DlAction where
  | mkdir (dir : Str)
  | httpGet (url : String)
  | createFile (path : Str)
  | wrote (path : Str) (bytes : List Nat)
  | progress (bytesDownloaded total : Nat)
  | flushed (path : Str)
  | renamed (src dst : Str)
deriving DecidableEq

/-- Embedding of the body-streaming loop of `download_model`
(lines 121-129): for each stream item, a transport error aborts with
`"Error downloading: ..."`; otherwise the chunk is written to the
temporary file (a write failure aborts with `"Error writing file:
..."`), the `downloaded` counter grows by the chunk length and the
progress callback is invoked with `(downloaded, total)`.  Result:
the emitted actions, the bytes accumulated in the temporary file, and
the error that stopped the loop, if any. -/
def writeLoop (tempPath : Str) (total : Nat) :
    List ChunkStep → Nat → List Nat → List DlAction × List Nat × Option String
  | [], _, content => ([], content, none)
  | .netErr e :: _, _, content =>
      ([], content, some ("Error downloading: " ++ e))
  | .chunk _ (some e) :: _, _, content =>
      ([], content, some ("Error writing file: " ++ e))
  | .chunk c none :: rest, downloaded, content =>
      let d := downloaded + c.length
      let r := writeLoop tempPath total rest d (content ++ c)
      (DlAction.wrote tempPath c :: DlAction.progress d total :: r.1, r.2)

/-- Success test of `reqwest::StatusCode::is_success`: a 2xx status. -/
def statusIsSuccess (s : Nat) : Bool := 200 ≤ s && s < 300

/-- Oracles for the fallible external steps of one `download_model`
call, plus its inputs: `none` means the step succeeds, `some msg`
that it fails with io error text `msg`; `status` is the HTTP response
status and `contentLength` the declared content length, absent when
the server did not declare one. -/
structure Env where
  dataDir : Str
  dirCreate : Option String
  connect : Option String
  status : Nat
  contentLength : Option Nat
  fileCreate : Option String
  chunks : List ChunkStep
  flush : Option String
  rename : Option String
deriving DecidableEq

/-- Outcome of one `download_model` call: the returned value, the
final filesystem and the emitted action trace. -/
structure DlOutcome where
  result : Except String Str
  fs : FS
  trace : List DlAction

/-- Embedding of `download_model` (lines 80-140 of the source file),
step for step: catalog lookup, directory creation, temporary path
computation, HTTP GET, status check, content length default, creation
of the temporary file, the streaming write loop, flush, and the final
rename of the temporary file onto the target path. -/
def downloadModel (env : Env) (fs0 : FS) (modelName : String) : DlOutcome :=
  match getAvailableModels.find? (fun m => m.name == modelName) with
  | none =>
      { result := .error ("Model '" ++ modelName ++ "' not found"),
        fs := fs0, trace := [] }
  | some model =>
      match env.dirCreate with
      | some e =>
          { result := .error ("Failed to create models directory: " ++ e),
            fs := fs0, trace := [] }
      | none =>
          let dir := getModelsDir env.dataDir
          let modelPath := getModelPath env.dataDir modelName
          let tempPath := rustWithExtension modelPath "bin.tmp".toList
          match env.connect with
          | some e =>
              { result := .error ("Failed to start download: " ++ e),
                fs := fs0, trace := [.mkdir dir] }
          | none =>
              if statusIsSuccess env.status = false then
                { result := .error ("Download failed with status: " ++ toString env.status),
                  fs := fs0, trace := [.mkdir dir, .httpGet model.url] }
              else
                let total := env.contentLength.getD 0
                match env.fileCreate with
                | some e =>
                    { result := .error ("Failed to create file: " ++ e),
                      fs := fs0, trace := [.mkdir dir, .httpGet model.url] }
                | none =>
                    let r := writeLoop tempPath total env.chunks 0 []
                    let fs2 := fsSet (fsSet fs0 tempPath (some [])) tempPath (some r.2.1)
                    let trace0 := DlAction.mkdir dir :: DlAction.httpGet model.url ::
                      DlAction.createFile tempPath :: r.1
                    match r.2.2 with
                    | some e => { result := .error e, fs := fs2, trace := trace0 }
                    | none =>
                        match env.flush with
                        | some e =>
                            { result := .error ("Error flushing file: " ++ e),
                              fs := fs2, trace := trace0 }
                        | none =>
                            match env.rename with
                            | some e =>
                                { result := .error ("Error finalizing download: " ++ e),
                                  fs := fs2, trace := trace0 ++ [.flushed tempPath] }
                            | none =>
                                { result := .ok modelPath,
                                  fs := fsRename fs2 tempPath modelPath,
                                  trace := trace0 ++
                                    [.flushed tempPath, .renamed tempPath modelPath] }

/-- Progress values carried by the progress actions of a trace, in
emission order. -/
def progressValues (tr : List DlAction) : List Nat :=
  tr.filterMap fun a =>
    match a with
    | .progress b _ => some b
    | _ => none

/-- Total number of bytes written by the write actions of a trace. -/
def writtenBytes (tr : List DlAction) : Nat :=
  (tr.filterMap fun a =>
    match a with
    | .wrote _ c => some c.length
    | _ => none).sum

/-- Percentage computed by the progress callback of
`download_model_command` (src/src-tauri/src/commands/models.rs, lines
52-71); the `f64` arithmetic of the positive branch is modelled over
the rationals, which the claims never inspect numerically — the
guarded zero branch is exact. -/
def percentOf (dl tot : Nat) : ℚ :=
  if tot > 0 then (dl : ℚ) / (tot : ℚ) * 100 else 0

theorem takeWhile_append_all {p : Char → Bool} (a b : Str)
    (ha : ∀ x ∈ a, p x = true) :
    (a ++ b).takeWhile p = a ++ b.takeWhile p := by
  induction a with
  | nil => simp
  | cons x xs ih =>
      have hx := ha x (List.mem_cons_self _ _)
      simp only [List.cons_append, List.takeWhile_cons, hx, if_true]
      rw [ih (fun y hy => ha y (List.mem_cons_of_mem _ hy))]

theorem dropWhile_append_all {p : Char → Bool} (a b : Str)
    (ha : ∀ x ∈ a, p x = true) :
    (a ++ b).dropWhile p = b.dropWhile p := by
  induction a with
  | nil => simp
  | cons x xs ih =>
      have hx := ha x (List.mem_cons_self _ _)
      simp only [List.cons_append, List.dropWhile_cons, hx, if_true]
      exact ih (fun y hy => ha y (List.mem_cons_of_mem _ hy))

/-- Splitting at the last separator of `a ++ sep :: b` when `b` is
separator-free: everything through that separator, then `b`. -/
theorem splitLast_append (sep : Char) (a b : Str) (hb : sep ∉ b) :
    splitLast sep (a ++ sep :: b) = (a ++ [sep], b) := by
  have hrev : (a ++ sep :: b).reverse = b.reverse ++ sep :: a.reverse := by
    simp
  have hall : ∀ x ∈ b.reverse, (x ≠ sep : Bool) = true := by
    intro x hx
    have : x ∈ b := List.mem_reverse.mp hx
    simp only [ne_eq, decide_eq_true_eq]
    exact fun hxs => hb (hxs ▸ this)
  unfold splitLast
  rw [hrev, dropWhile_append_all _ _ hall, takeWhile_append_all _ _ hall]
  simp

/-- The temporary path equals the target path with `".tmp"` appended:
for every identifier without a path separator, the model path ends in
a file name `ggml-<identifier>.bin` whose extension is `bin`, which
`with_extension("bin.tmp")` replaces by `bin.tmp`. -/
theorem temp_path_eq (dataDir : Str) (name : String)
    (h : ('/' : Char) ∉ name.toList) :
    rustWithExtension (getModelPath dataDir name) "bin.tmp".toList =
      getModelPath dataDir name ++ ".tmp".toList := by
  have hb : ('/' : Char) ∉ ("ggml-".toList ++ name.toList ++ ".bin".toList) := by
    intro hmem
    rcases List.mem_append.mp hmem with h1 | h2
    · rcases List.mem_append.mp h1 with h3 | h4
      · exact absurd h3 (by decide)
      · exact h h4
    · exact absurd h2 (by decide)
  have hsplit1 : splitLast '/' (getModelPath dataDir name) =
      (getModelsDir dataDir ++ ['/'],
        "ggml-".toList ++ name.toList ++ ".bin".toList) := by
    simp only [getModelPath, pathJoin]
    exact splitLast_append '/' _ _ hb
  have hBeq : ("ggml-".toList ++ name.toList ++ ".bin".toList : Str) =
      ("ggml-".toList ++ name.toList) ++ '.' :: "bin".toList := rfl
  have hsplit2 : splitLast '.' ("ggml-".toList ++ name.toList ++ ".bin".toList) =
      (("ggml-".toList ++ name.toList) ++ ['.'], "bin".toList) := by
    rw [hBeq]
    exact splitLast_append '.' _ _ (by decide)
  have hlen : ¬ (("ggml-".toList ++ name.toList) ++ ['.'] : Str).length ≤ 1 := by
    simp [List.length_append]
  simp only [rustWithExtension, hsplit1, hsplit2, if_neg hlen, List.dropLast_concat]
  simp only [getModelPath, pathJoin, List.append_assoc, List.cons_append]
  rfl

/-- A path never equals itself with `".tmp"` appended. -/
theorem ne_append_tmp (p : Str) : p ≠ p ++ ".tmp".toList := by
  intro h
  have := congrArg List.length h
  simp [List.length_append] at this

/-- Identifiers found in the catalog are the six static names, none of
which contains a path separator. -/
theorem catalog_name_no_slash (name : String) (m : ModelInfo)
    (hfind : getAvailableModels.find? (fun x => x.name == name) = some m) :
    ('/' : Char) ∉ name.toList := by
  have hmem := List.mem_of_find?_eq_some hfind
  have heq := List.find?_some hfind
  have hname : m.name = name := by simpa using heq
  rw [← hname]
  simp only [getAvailableModels, List.mem_cons, List.not_mem_nil, or_false] at hmem
  rcases hmem with h|h|h|h|h|h <;> subst h <;> decide

/-- Stream items the loop consumes fully: chunks that arrive and whose
write succeeds. -/
def isOkChunk : ChunkStep → Bool
  | .chunk _ none => true
  | _ => false

/-- Bytes carried by a stream item (empty for a transport error). -/
def chunkBytes : ChunkStep → List Nat
  | .netErr _ => []
  | .chunk c _ => c

/-- Chunks the write loop consumes before stopping: the longest
prefix of cleanly written chunks. -/
def okChunks : List ChunkStep → List (List Nat)
  | .chunk c none :: rest => c :: okChunks rest
  | _ => []

/-- Trace the write loop emits for cleanly written chunks `cs`, the
`downloaded` counter starting at `d`: for each chunk, its write, then
the progress callback carrying the grown counter. -/
def mkTrace (tempPath : Str) (total : Nat) : Nat → List (List Nat) → List DlAction
  | _, [] => []
  | d, c :: cs =>
      DlAction.wrote tempPath c :: DlAction.progress (d + c.length) total ::
        mkTrace tempPath total (d + c.length) cs

theorem writeLoop_trace (tempPath : Str) (total : Nat) :
    ∀ (steps : List ChunkStep) (d : Nat) (content : List Nat),
      (writeLoop tempPath total steps d content).1 =
        mkTrace tempPath total d (okChunks steps)
  | [], _, _ => rfl
  | .netErr _ :: _, _, _ => rfl
  | .chunk _ (some _) :: _, _, _ => rfl
  | .chunk c none :: rest, d, content => by
      simp only [writeLoop, okChunks, mkTrace]
      rw [writeLoop_trace tempPath total rest (d + c.length) (content ++ c)]

theorem writeLoop_content (tempPath : Str) (total : Nat) :
    ∀ (steps : List ChunkStep) (d : Nat) (content : List Nat),
      (writeLoop tempPath total steps d content).2.1 =
        content ++ (okChunks steps).flatten
  | [], _, content => by simp [writeLoop, okChunks]
  | .netErr _ :: _, _, content => by simp [writeLoop, okChunks]
  | .chunk _ (some _) :: _, _, content => by simp [writeLoop, okChunks]
  | .chunk c none :: rest, d, content => by
      simp only [writeLoop, okChunks, List.flatten_cons]
      rw [writeLoop_content tempPath total rest (d + c.length) (content ++ c)]
      simp [List.append_assoc]

theorem writeLoop_err_none (tempPath : Str) (total : Nat) :
    ∀ (steps : List ChunkStep) (d : Nat) (content : List Nat),
      (writeLoop tempPath total steps d content).2.2 = none →
      (∀ s ∈ steps, isOkChunk s = true) ∧
        okChunks steps = steps.map chunkBytes
  | [], _, _, _ => ⟨by simp, rfl⟩
  | .netErr e :: _, _, _, h => by simp [writeLoop] at h
  | .chunk _ (some e) :: _, _, _, h => by simp [writeLoop] at h
  | .chunk c none :: rest, d, content, h => by
      have h' : (writeLoop tempPath total rest (d + c.length) (content ++ c)).2.2 = none := by
        simpa [writeLoop] using h
      obtain ⟨hall, hok⟩ := writeLoop_err_none tempPath total rest _ _ h'
      constructor
      · intro s hs
        rcases List.mem_cons.mp hs with hs | hs
        · subst hs; rfl
        · exact hall s hs
      · simp [okChunks, List.map_cons, chunkBytes, hok]

theorem writeLoop_total_irrel (tempPath : Str) (t1 t2 : Nat) :
    ∀ (steps : List ChunkStep) (d : Nat) (content : List Nat),
      (writeLoop tempPath t1 steps d content).2 =
        (writeLoop tempPath t2 steps d content).2
  | [], _, _ => rfl
  | .netErr _ :: _, _, _ => rfl
  | .chunk _ (some _) :: _, _, _ => rfl
  | .chunk c none :: rest, d, content => by
      simp only [writeLoop]
      exact writeLoop_total_irrel tempPath t1 t2 rest (d + c.length) (content ++ c)

theorem progressValues_append (a b : List DlAction) :
    progressValues (a ++ b) = progressValues a ++ progressValues b := by
  simp [progressValues]

theorem writtenBytes_append (a b : List DlAction) :
    writtenBytes (a ++ b) = writtenBytes a + writtenBytes b := by
  simp [writtenBytes]

theorem mkTrace_pv_nil (tempPath : Str) (total d : Nat) :
    progressValues (mkTrace tempPath total d []) = [] := rfl

theorem mkTrace_pv_cons (tempPath : Str) (total d : Nat) (c : List Nat)
    (cs : List (List Nat)) :
    progressValues (mkTrace tempPath total d (c :: cs)) =
      (d + c.length) :: progressValues (mkTrace tempPath total (d + c.length) cs) := by
  simp [mkTrace, progressValues]

theorem mkTrace_chain (tempPath : Str) (total : Nat) :
    ∀ (cs : List (List Nat)) (d : Nat),
      List.Chain' (· ≤ ·) (d :: progressValues (mkTrace tempPath total d cs))
  | [], d => by simp [mkTrace, progressValues]
  | c :: cs', d => by
      rw [mkTrace_pv_cons]
      exact List.Chain'.cons (Nat.le_add_right d c.length)
        (mkTrace_chain tempPath total cs' (d + c.length))

theorem mkTrace_written (tempPath : Str) (total : Nat) :
    ∀ (cs : List (List Nat)) (d : Nat),
      writtenBytes (mkTrace tempPath total d cs) = (cs.map List.length).sum
  | [], _ => rfl
  | c :: cs', d => by
      have ih := mkTrace_written tempPath total cs' (d + c.length)
      simp only [writtenBytes] at ih ⊢
      simp only [mkTrace, List.filterMap_cons]
      rw [List.sum_cons, ih, List.map_cons, List.sum_cons]

theorem cons_getLast?_getD :
    ∀ (xs : List Nat) (x d : Nat),
      ((x :: xs).getLast?).getD d = (xs.getLast?).getD x
  | [], _, _ => rfl
  | y :: ys, x, d => by
      rw [List.getLast?_cons_cons, cons_getLast?_getD ys y d,
        cons_getLast?_getD ys y x]

theorem mkTrace_lastProgress (tempPath : Str) (total : Nat) :
    ∀ (cs : List (List Nat)) (d : Nat),
      (progressValues (mkTrace tempPath total d cs)).getLast?.getD d =
        d + (cs.map List.length).sum
  | [], d => by simp [mkTrace, progressValues]
  | c :: cs', d => by
      rw [mkTrace_pv_cons, cons_getLast?_getD,
        mkTrace_lastProgress tempPath total cs' (d + c.length)]
      simp [List.map_cons, List.sum_cons]
      omega

theorem writtenBytes_cons_wrote (p : Str) (c : List Nat) (tr : List DlAction) :
    writtenBytes (DlAction.wrote p c :: tr) = c.length + writtenBytes tr := by
  simp [writtenBytes, List.filterMap_cons]

theorem writtenBytes_cons_progress (b t : Nat) (tr : List DlAction) :
    writtenBytes (DlAction.progress b t :: tr) = writtenBytes tr := by
  simp [writtenBytes, List.filterMap_cons]

theorem fsGet_set_same (fs : FS) (p : Str) (v : Option (List Nat)) :
    fsGet (fsSet fs p v) p = v := by
  simp [fsGet, fsSet]

theorem fsGet_set_other (fs : FS) (p q : Str) (v : Option (List Nat)) (h : q ≠ p) :
    fsGet (fsSet fs p v) q = fsGet fs q := by
  simp [fsGet, fsSet, h]

theorem progress_not_mem_of_pv_nil (l : List DlAction)
    (h : progressValues l = []) (b t : Nat) : DlAction.progress b t ∉ l := by
  intro hm
  have hb : b ∈ progressValues l :=
    List.mem_filterMap.mpr ⟨DlAction.progress b t, hm, rfl⟩
  rw [h] at hb
  exact absurd hb (List.not_mem_nil b)

theorem no_progress_split (tr : List DlAction) (hp : progressValues tr = [])
    (pre post : List DlAction) (b t : Nat)
    (h : tr = pre ++ DlAction.progress b t :: post) : False := by
  refine progress_not_mem_of_pv_nil tr hp b t ?_
  rw [h]
  exact List.mem_append_right _ (List.mem_cons_self _ _)

theorem mkTrace_wrote_mem (tempPath : Str) (total : Nat) :
    ∀ (cs : List (List Nat)) (d : Nat) (p : Str) (c : List Nat),
      DlAction.wrote p c ∈ mkTrace tempPath total d cs → p = tempPath
  | [], _, _, _, h => by simp [mkTrace] at h
  | c0 :: cs', d, p, c, h => by
      simp only [mkTrace, List.mem_cons] at h
      rcases h with h | h | h
      · exact (DlAction.wrote.inj h).1
      · exact absurd h (by simp)
      · exact mkTrace_wrote_mem tempPath total cs' (d + c0.length) p c h

theorem mkTrace_progress_total_mem (tempPath : Str) (total : Nat) :
    ∀ (cs : List (List Nat)) (d : Nat) (b t : Nat),
      DlAction.progress b t ∈ mkTrace tempPath total d cs → t = total
  | [], _, _, _, h => by simp [mkTrace] at h
  | c0 :: cs', d, b, t, h => by
      simp only [mkTrace, List.mem_cons] at h
      rcases h with h | h | h
      · exact absurd h (by simp)
      · exact (DlAction.progress.inj h).2
      · exact mkTrace_progress_total_mem tempPath total cs' (d + c0.length) b t h

/-- Every progress action of a write-loop trace sits directly after
the write of its chunk, and its byte count equals the bytes written up
to and including that chunk. -/
theorem mkTrace_progress_split (tempPath : Str) (total : Nat) :
    ∀ (cs : List (List Nat)) (d : Nat) (pre post : List DlAction) (b t : Nat),
      mkTrace tempPath total d cs = pre ++ DlAction.progress b t :: post →
      (∃ pre2 c, pre = pre2 ++ [DlAction.wrote tempPath c]) ∧
        b = d + writtenBytes pre
  | [], d, pre, post, b, t, h => by simp [mkTrace] at h
  | c0 :: cs', d, pre, post, b, t, h => by
      cases pre with
      | nil => simp [mkTrace] at h
      | cons a pre' =>
          cases pre' with
          | nil =>
              simp only [mkTrace, List.cons_append, List.nil_append] at h
              obtain ⟨h1, h2⟩ := List.cons.inj h
              obtain ⟨h3, h4⟩ := List.cons.inj h2
              obtain ⟨h5, h6⟩ := DlAction.progress.inj h3
              refine ⟨⟨[], c0, by rw [← h1, List.nil_append]⟩, ?_⟩
              have hwb : writtenBytes ([] : List DlAction) = 0 := rfl
              rw [← h1, writtenBytes_cons_wrote, hwb]
              omega
          | cons a2 pre'' =>
              simp only [mkTrace, List.cons_append] at h
              obtain ⟨h1, h2⟩ := List.cons.inj h
              obtain ⟨h3, h4⟩ := List.cons.inj h2
              obtain ⟨⟨pre2, cx, hpre⟩, hb⟩ :=
                mkTrace_progress_split tempPath total cs' (d + c0.length)
                  pre'' post b t h4
              constructor
              · exact ⟨a :: a2 :: pre2, cx, by rw [hpre]; rfl⟩
              · rw [← h1, ← h3, writtenBytes_cons_wrote, writtenBytes_cons_progress,
                  hb]
                omega

/-- Lifting of the progress decomposition through a progress-free
prefix `P` (with no write actions either) and a progress-free suffix
`S`: in `P ++ write-loop trace ++ S`, every progress action follows a
write and carries the bytes written so far. -/
theorem trace_progress_split (tempPath : Str) (total : Nat)
    (cs : List (List Nat)) (P S : List DlAction)
    (hP : progressValues P = []) (hPw : writtenBytes P = 0)
    (hS : progressValues S = [])
    (pre post : List DlAction) (b t : Nat)
    (h : P ++ (mkTrace tempPath total 0 cs ++ S) = pre ++ DlAction.progress b t :: post) :
    (∃ pre2 c, pre = pre2 ++ [DlAction.wrote tempPath c]) ∧
      b = writtenBytes pre := by
  rcases List.append_eq_append_iff.mp h with ⟨a', ha1, ha2⟩ | ⟨c', hc1, hc2⟩
  · rcases List.append_eq_append_iff.mp ha2 with ⟨a2, hb1, hb2⟩ | ⟨c2, hd1, hd2⟩
    · exact absurd (hb2 ▸ List.mem_append_right a2 (List.mem_cons_self _ _))
        (progress_not_mem_of_pv_nil S hS b t)
    · cases c2 with
      | nil =>
          rw [List.nil_append] at hd2
          exact absurd (hd2 ▸ List.mem_cons_self _ _)
            (progress_not_mem_of_pv_nil S hS b t)
      | cons x c3 =>
          rw [List.cons_append] at hd2
          obtain ⟨hx, hx2⟩ := List.cons.inj hd2
          rw [← hx] at hd1
          obtain ⟨⟨pre2, cx, hpre⟩, hb⟩ :=
            mkTrace_progress_split tempPath total cs 0 a' c3 b t hd1
          constructor
          · refine ⟨P ++ pre2, cx, ?_⟩
            rw [ha1, hpre, List.append_assoc]
          · rw [ha1, writtenBytes_append, hPw, hb]
  · cases c' with
    | nil =>
        rw [List.nil_append] at hc2
        cases cs with
        | nil =>
            rw [mkTrace, List.nil_append] at hc2
            exact absurd (hc2 ▸ List.mem_cons_self _ _)
              (progress_not_mem_of_pv_nil S hS b t)
        | cons c0 cs' =>
            rw [mkTrace, List.cons_append] at hc2
            exact absurd hc2 (by simp)
    | cons x c'' =>
        rw [List.cons_append] at hc2
        obtain ⟨hx, hx2⟩ := List.cons.inj hc2
        refine absurd ?_ (progress_not_mem_of_pv_nil P hP b t)
        rw [hc1, hx]
        exact List.mem_append_right pre (List.mem_cons_self _ _)

/-- Temporary path computed inside `download_model` for a given
identifier: the target path with extension replaced by `bin.tmp`. -/
def tempPathOf (env : Env) (name : String) : Str :=
  rustWithExtension (getModelPath env.dataDir name) "bin.tmp".toList

/-- Result of the streaming write loop of one download attempt. -/
def dlWriteLoop (env : Env) (name : String) :
    List DlAction × List Nat × Option String :=
  writeLoop (tempPathOf env name) (env.contentLength.getD 0) env.chunks 0 []

/-- Filesystem after the temporary file has been created and the
write loop has run: only the temporary path is touched. -/
def dlFs2 (env : Env) (fs0 : FS) (name : String) : FS :=
  fsSet (fsSet fs0 (tempPathOf env name) (some [])) (tempPathOf env name)
    (some (dlWriteLoop env name).2.1)

/-- Exhaustive case analysis of one `download_model` run: either it
fails before the temporary file exists (filesystem untouched, trace
at most the directory creation and the HTTP request), or it fails
after the write loop (filesystem touched only at the temporary path,
trace without a rename), or it succeeds (write loop clean, flush and
rename appended to the trace). -/
theorem downloadModel_branches (env : Env) (fs0 : FS) (name : String) :
    ((∃ e, (downloadModel env fs0 name).result = Except.error e) ∧
      (downloadModel env fs0 name).fs = fs0 ∧
      ((downloadModel env fs0 name).trace = [] ∨
        (downloadModel env fs0 name).trace =
          [DlAction.mkdir (getModelsDir env.dataDir)] ∨
        ∃ m, getAvailableModels.find? (fun x => x.name == name) = some m ∧
          (downloadModel env fs0 name).trace =
            [DlAction.mkdir (getModelsDir env.dataDir), DlAction.httpGet m.url])) ∨
    (∃ m S, getAvailableModels.find? (fun x => x.name == name) = some m ∧
      (S = ([] : List DlAction) ∨ S = [DlAction.flushed (tempPathOf env name)]) ∧
      (∃ e, (downloadModel env fs0 name).result = Except.error e) ∧
      (downloadModel env fs0 name).fs = dlFs2 env fs0 name ∧
      (downloadModel env fs0 name).trace =
        DlAction.mkdir (getModelsDir env.dataDir) :: DlAction.httpGet m.url ::
          DlAction.createFile (tempPathOf env name) ::
          ((dlWriteLoop env name).1 ++ S)) ∨
    (∃ m, getAvailableModels.find? (fun x => x.name == name) = some m ∧
      (dlWriteLoop env name).2.2 = none ∧
      (downloadModel env fs0 name).result =
        Except.ok (getModelPath env.dataDir name) ∧
      (downloadModel env fs0 name).fs =
        fsRename (dlFs2 env fs0 name) (tempPathOf env name)
          (getModelPath env.dataDir name) ∧
      (downloadModel env fs0 name).trace =
        DlAction.mkdir (getModelsDir env.dataDir) :: DlAction.httpGet m.url ::
          DlAction.createFile (tempPathOf env name) ::
          ((dlWriteLoop env name).1 ++
            [DlAction.flushed (tempPathOf env name),
              DlAction.renamed (tempPathOf env name)
                (getModelPath env.dataDir name)])) := by
  simp only [downloadModel, tempPathOf, dlWriteLoop, dlFs2]
  cases hfind : getAvailableModels.find? (fun m => m.name == name) with
  | none => exact Or.inl ⟨⟨_, rfl⟩, rfl, Or.inl rfl⟩
  | some m =>
      cases hdc : env.dirCreate with
      | some e => exact Or.inl ⟨⟨_, rfl⟩, rfl, Or.inl rfl⟩
      | none =>
          cases hcon : env.connect with
          | some e => exact Or.inl ⟨⟨_, rfl⟩, rfl, Or.inr (Or.inl rfl)⟩
          | none =>
              cases hst : statusIsSuccess env.status with
              | false =>
                  exact Or.inl ⟨⟨_, rfl⟩, rfl, Or.inr (Or.inr ⟨m, rfl, rfl⟩)⟩
              | true =>
                  cases hfc : env.fileCreate with
                  | some e =>
                      exact Or.inl ⟨⟨_, rfl⟩, rfl, Or.inr (Or.inr ⟨m, rfl, rfl⟩)⟩
                  | none =>
                      cases herr : (writeLoop
                          (rustWithExtension (getModelPath env.dataDir name)
                            "bin.tmp".toList)
                          (env.contentLength.getD 0) env.chunks 0 []).2.2 with
                      | some e =>
                          refine Or.inr (Or.inl ⟨m, [], rfl, Or.inl rfl,
                            ⟨_, rfl⟩, rfl, ?_⟩)
                          rw [List.append_nil]
                          rfl
                      | none =>
                          cases hfl : env.flush with
                          | some e =>
                              refine Or.inr (Or.inl ⟨m, [], rfl, Or.inl rfl,
                                ⟨_, rfl⟩, rfl, ?_⟩)
                              rw [List.append_nil]
                              rfl
                          | none =>
                              cases hrn : env.rename with
                              | some e =>
                                  exact Or.inr (Or.inl ⟨m,
                                    [DlAction.flushed (rustWithExtension
                                      (getModelPath env.dataDir name)
                                      "bin.tmp".toList)],
                                    rfl, Or.inr rfl, ⟨_, rfl⟩, rfl, rfl⟩)
                              | none =>
                                  exact Or.inr (Or.inr ⟨m, rfl, rfl, rfl,
                                    rfl, rfl⟩)

/-- C4: a download attempt that returns an error leaves the target
path exactly as it was (absent stays absent, present stays present
with the same content), because every write before the rename goes to
the distinct temporary path; a download attempt that succeeds returns
the target path, which afterwards holds the complete artifact (the
concatenation of every chunk of the response body, all of which were
cleanly written), the temporary path no longer exists, no other path
changed, and the single atomic rename — the last action of the trace —
is the only action that ever touches the target path (in particular
no write action targets it). -/
theorem c4_atomic_commit (env : Env) (fs0 : FS) (name : String) :
    (∀ e, (downloadModel env fs0 name).result = Except.error e →
        fsGet (downloadModel env fs0 name).fs (getModelPath env.dataDir name) =
          fsGet fs0 (getModelPath env.dataDir name)) ∧
      (∀ p, (downloadModel env fs0 name).result = Except.ok p →
        p = getModelPath env.dataDir name ∧
        fsGet (downloadModel env fs0 name).fs p =
          some ((env.chunks.map chunkBytes).flatten) ∧
        (∀ s ∈ env.chunks, isOkChunk s = true) ∧
        fsGet (downloadModel env fs0 name).fs (tempPathOf env name) = none ∧
        (∀ q, q ≠ p → q ≠ tempPathOf env name →
          fsGet (downloadModel env fs0 name).fs q = fsGet fs0 q) ∧
        (downloadModel env fs0 name).trace.getLast? =
          some (DlAction.renamed (tempPathOf env name) p) ∧
        (∀ q c, DlAction.wrote q c ∈ (downloadModel env fs0 name).trace →
          q ≠ p)) := by
  rcases downloadModel_branches env fs0 name with
    ⟨⟨e0, he⟩, hfs, _⟩ | ⟨m, S, hfind, hS, ⟨e0, he⟩, hfs, htr⟩ |
    ⟨m, hfind, herrnone, hres, hfs, htr⟩
  · refine ⟨fun e _ => by rw [hfs], fun p hok => ?_⟩
    rw [he] at hok
    simp at hok
  · have hslash := catalog_name_no_slash name m hfind
    have htp : tempPathOf env name =
        getModelPath env.dataDir name ++ ".tmp".toList := by
      unfold tempPathOf
      exact temp_path_eq env.dataDir name hslash
    have hne : getModelPath env.dataDir name ≠ tempPathOf env name := by
      rw [htp]
      exact ne_append_tmp _
    refine ⟨fun e _ => ?_, fun p hok => ?_⟩
    · rw [hfs]
      unfold dlFs2
      rw [fsGet_set_other _ _ _ _ hne, fsGet_set_other _ _ _ _ hne]
    · rw [he] at hok
      simp at hok
  · have hslash := catalog_name_no_slash name m hfind
    have htp : tempPathOf env name =
        getModelPath env.dataDir name ++ ".tmp".toList := by
      unfold tempPathOf
      exact temp_path_eq env.dataDir name hslash
    have hne : getModelPath env.dataDir name ≠ tempPathOf env name := by
      rw [htp]
      exact ne_append_tmp _
    have hwl : (dlWriteLoop env name).2.2 = none := herrnone
    have herr2 : (writeLoop (tempPathOf env name) (env.contentLength.getD 0)
        env.chunks 0 []).2.2 = none := herrnone
    obtain ⟨hall, hok2⟩ := writeLoop_err_none (tempPathOf env name)
      (env.contentLength.getD 0) env.chunks 0 [] herr2
    have hcontent : (dlWriteLoop env name).2.1 =
        (env.chunks.map chunkBytes).flatten := by
      unfold dlWriteLoop
      rw [writeLoop_content (tempPathOf env name) (env.contentLength.getD 0)
        env.chunks 0 [], hok2, List.nil_append]
    refine ⟨fun e he => ?_, fun p hok => ?_⟩
    · rw [hres] at he
      simp at he
    · rw [hres] at hok
      have hp : getModelPath env.dataDir name = p := Except.ok.inj hok
      subst hp
      refine ⟨rfl, ?_, hall, ?_, ?_, ?_, ?_⟩
      · rw [hfs]
        unfold fsRename
        rw [fsGet_set_other _ _ _ _ hne, fsGet_set_same]
        unfold dlFs2
        rw [fsGet_set_same, hcontent]
      · rw [hfs]
        unfold fsRename
        rw [fsGet_set_same]
      · intro q hq1 hq2
        rw [hfs]
        unfold fsRename dlFs2
        rw [fsGet_set_other _ _ _ _ hq2, fsGet_set_other _ _ _ _ hq1,
          fsGet_set_other _ _ _ _ hq2, fsGet_set_other _ _ _ _ hq2]
      · rw [htr]
        have hsplit2 : DlAction.mkdir (getModelsDir env.dataDir) ::
            DlAction.httpGet m.url ::
            DlAction.createFile (tempPathOf env name) ::
            ((dlWriteLoop env name).1 ++
              [DlAction.flushed (tempPathOf env name),
                DlAction.renamed (tempPathOf env name)
                  (getModelPath env.dataDir name)]) =
            (DlAction.mkdir (getModelsDir env.dataDir) ::
              DlAction.httpGet m.url ::
              DlAction.createFile (tempPathOf env name) ::
              ((dlWriteLoop env name).1 ++
                [DlAction.flushed (tempPathOf env name)])) ++
              [DlAction.renamed (tempPathOf env name)
                (getModelPath env.dataDir name)] := by
          simp [List.append_assoc]
        rw [hsplit2, List.getLast?_concat]
      · intro q c hmem
        rw [htr] at hmem
        have hwtr : (dlWriteLoop env name).1 =
            mkTrace (tempPathOf env name) (env.contentLength.getD 0) 0
              (okChunks env.chunks) := by
          unfold dlWriteLoop
          exact writeLoop_trace _ _ env.chunks 0 []
        simp only [List.mem_cons] at hmem
        rcases hmem with hmem | hmem | hmem | hmem
        · exact absurd hmem (by simp)
        · exact absurd hmem (by simp)
        · exact absurd hmem (by simp)
        · rcases List.mem_append.mp hmem with hmem | hmem
          · rw [hwtr] at hmem
            have := mkTrace_wrote_mem (tempPathOf env name)
              (env.contentLength.getD 0) (okChunks env.chunks) 0 q c hmem
            rw [this]
            exact fun hcontra => hne hcontra.symm
          · rcases List.mem_cons.mp hmem with hmem | hmem
            · exact absurd hmem (by simp)
            · rcases List.mem_cons.mp hmem with hmem | hmem
              · exact absurd hmem (by simp)
              · exact absurd hmem (by simp)

/-- C5: over one download attempt, the progress callback's
bytes-downloaded values are monotonically non-decreasing, the final
value (0 when no callback ran) equals the total number of bytes
written to the temporary file, and every callback happens directly
after the write of its chunk, carrying exactly the number of bytes
written so far. -/
theorem c5_progress_reporting (env : Env) (fs0 : FS) (name : String) :
    List.Chain' (· ≤ ·) (progressValues (downloadModel env fs0 name).trace) ∧
      (progressValues (downloadModel env fs0 name).trace).getLast?.getD 0 =
        writtenBytes (downloadModel env fs0 name).trace ∧
      (∀ pre post b t,
        (downloadModel env fs0 name).trace =
          pre ++ DlAction.progress b t :: post →
        (∃ pre2 p c, pre = pre2 ++ [DlAction.wrote p c]) ∧
          b = writtenBytes pre) := by
  rcases downloadModel_branches env fs0 name with
    ⟨_, _, htr⟩ | ⟨m, S, hfind, hS, _, _, htr⟩ | ⟨m, hfind, herrnone, _, _, htr⟩
  · have hpv : progressValues (downloadModel env fs0 name).trace = [] := by
      rcases htr with h | h | ⟨m, _, h⟩ <;> rw [h] <;> rfl
    have hwb : writtenBytes (downloadModel env fs0 name).trace = 0 := by
      rcases htr with h | h | ⟨m, _, h⟩ <;> rw [h] <;> rfl
    refine ⟨by rw [hpv]; exact List.chain'_nil, by rw [hpv, hwb]; rfl, ?_⟩
    intro pre post b t heq
    exact (no_progress_split _ hpv pre post b t heq).elim
  · have hwtr : (dlWriteLoop env name).1 =
        mkTrace (tempPathOf env name) (env.contentLength.getD 0) 0
          (okChunks env.chunks) := by
      unfold dlWriteLoop
      exact writeLoop_trace _ _ env.chunks 0 []
    have hSpv : progressValues S = [] := by
      rcases hS with h | h <;> rw [h] <;> rfl
    have hSwb : writtenBytes S = 0 := by
      rcases hS with h | h <;> rw [h] <;> rfl
    have hpv : progressValues (downloadModel env fs0 name).trace =
        progressValues (mkTrace (tempPathOf env name)
          (env.contentLength.getD 0) 0 (okChunks env.chunks)) := by
      rw [htr, hwtr]
      show progressValues (mkTrace (tempPathOf env name)
        (env.contentLength.getD 0) 0 (okChunks env.chunks) ++ S) = _
      rw [progressValues_append, hSpv, List.append_nil]
    have hwb : writtenBytes (downloadModel env fs0 name).trace =
        ((okChunks env.chunks).map List.length).sum := by
      rw [htr, hwtr]
      show writtenBytes (mkTrace (tempPathOf env name)
        (env.contentLength.getD 0) 0 (okChunks env.chunks) ++ S) = _
      rw [writtenBytes_append, hSwb, Nat.add_zero, mkTrace_written]
    refine ⟨?_, ?_, ?_⟩
    · rw [hpv]
      exact (List.chain'_cons'.mp (mkTrace_chain (tempPathOf env name)
        (env.contentLength.getD 0) (okChunks env.chunks) 0)).2
    · rw [hpv, hwb, mkTrace_lastProgress]
      exact Nat.zero_add _
    · intro pre post b t heq
      rw [htr, hwtr] at heq
      obtain ⟨⟨pre2, c, hpre⟩, hb⟩ := trace_progress_split
        (tempPathOf env name) (env.contentLength.getD 0) (okChunks env.chunks)
        [DlAction.mkdir (getModelsDir env.dataDir), DlAction.httpGet m.url,
          DlAction.createFile (tempPathOf env name)] S rfl rfl hSpv
        pre post b t heq
      exact ⟨⟨pre2, tempPathOf env name, c, hpre⟩, hb⟩
  · have hwtr : (dlWriteLoop env name).1 =
        mkTrace (tempPathOf env name) (env.contentLength.getD 0) 0
          (okChunks env.chunks) := by
      unfold dlWriteLoop
      exact writeLoop_trace _ _ env.chunks 0 []
    have hpv : progressValues (downloadModel env fs0 name).trace =
        progressValues (mkTrace (tempPathOf env name)
          (env.contentLength.getD 0) 0 (okChunks env.chunks)) := by
      rw [htr, hwtr]
      show progressValues (mkTrace (tempPathOf env name)
        (env.contentLength.getD 0) 0 (okChunks env.chunks) ++
          [DlAction.flushed (tempPathOf env name),
            DlAction.renamed (tempPathOf env name)
              (getModelPath env.dataDir name)]) = _
      rw [progressValues_append]
      exact List.append_nil _
    have hwb : writtenBytes (downloadModel env fs0 name).trace =
        ((okChunks env.chunks).map List.length).sum := by
      rw [htr, hwtr]
      show writtenBytes (mkTrace (tempPathOf env name)
        (env.contentLength.getD 0) 0 (okChunks env.chunks) ++
          [DlAction.flushed (tempPathOf env name),
            DlAction.renamed (tempPathOf env name)
              (getModelPath env.dataDir name)]) = _
      rw [writtenBytes_append, mkTrace_written]
      rfl
    refine ⟨?_, ?_, ?_⟩
    · rw [hpv]
      exact (List.chain'_cons'.mp (mkTrace_chain (tempPathOf env name)
        (env.contentLength.getD 0) (okChunks env.chunks) 0)).2
    · rw [hpv, hwb, mkTrace_lastProgress]
      exact Nat.zero_add _
    · intro pre post b t heq
      rw [htr, hwtr] at heq
      obtain ⟨⟨pre2, c, hpre⟩, hb⟩ := trace_progress_split
        (tempPathOf env name) (env.contentLength.getD 0) (okChunks env.chunks)
        [DlAction.mkdir (getModelsDir env.dataDir), DlAction.httpGet m.url,
          DlAction.createFile (tempPathOf env name)]
        [DlAction.flushed (tempPathOf env name),
          DlAction.renamed (tempPathOf env name)
            (getModelPath env.dataDir name)] rfl rfl rfl
        pre post b t heq
      exact ⟨⟨pre2, tempPathOf env name, c, hpre⟩, hb⟩

theorem mkTrace_flushed_not_mem (tempPath : Str) (total : Nat) :
    ∀ (cs : List (List Nat)) (d : Nat) (p : Str),
      DlAction.flushed p ∉ mkTrace tempPath total d cs
  | [], _, _ => by simp [mkTrace]
  | c0 :: cs', d, p => by
      simp only [mkTrace, List.mem_cons]
      push_neg
      exact ⟨by simp, by simp,
        mkTrace_flushed_not_mem tempPath total cs' (d + c0.length) p⟩

theorem mkTrace_createFile_not_mem (tempPath : Str) (total : Nat) :
    ∀ (cs : List (List Nat)) (d : Nat) (p : Str),
      DlAction.createFile p ∉ mkTrace tempPath total d cs
  | [], _, _ => by simp [mkTrace]
  | c0 :: cs', d, p => by
      simp only [mkTrace, List.mem_cons]
      push_neg
      exact ⟨by simp, by simp,
        mkTrace_createFile_not_mem tempPath total cs' (d + c0.length) p⟩

/-- C6: looking up an identifier that is absent from the catalog makes
`download_model` fail with the unknown-model error before any side
effect: the filesystem is untouched and the action trace is empty —
no directory creation, no HTTP request, no file creation, no write
anywhere. -/
theorem c6_unknown_model_no_side_effects (env : Env) (fs0 : FS) (name : String)
    (h : getAvailableModels.find? (fun m => m.name == name) = none) :
    (downloadModel env fs0 name).result =
        Except.error ("Model '" ++ name ++ "' not found") ∧
      (downloadModel env fs0 name).fs = fs0 ∧
      (downloadModel env fs0 name).trace = [] := by
  unfold downloadModel
  rw [h]
  exact ⟨rfl, rfl, rfl⟩

theorem c6_unknown_model_no_side_effects_witness :
    (downloadModel (Env.mk "/data".toList none none 200 (some 100) none
        [ChunkStep.chunk [1, 2] none] none none) [] "ghost").result =
        Except.error "Model 'ghost' not found" ∧
      (downloadModel (Env.mk "/data".toList none none 200 (some 100) none
        [ChunkStep.chunk [1, 2] none] none none) [] "ghost").fs = [] ∧
      (downloadModel (Env.mk "/data".toList none none 200 (some 100) none
        [ChunkStep.chunk [1, 2] none] none none) [] "ghost").trace = [] := by
  have h := c6_unknown_model_no_side_effects
    (Env.mk "/data".toList none none 200 (some 100) none
      [ChunkStep.chunk [1, 2] none] none none) [] "ghost" (by rfl)
  exact ⟨h.1, h.2.1, h.2.2⟩

/-- C9: `get_model_path` is a pure, total, deterministic function of
the data directory and the identifier alone — the per-application
data directory joined with the fixed components and the file name
`ggml-<identifier>.bin` — and its definition never consults the
catalog, so it succeeds (returns this path) for every identifier,
known or not. -/
theorem c9_resolve_path_deterministic (dataDir : Str) (name : String) :
    getModelPath dataDir name =
      dataDir ++ "/com.whisper-gui.app/models/ggml-".toList ++ name.toList ++
        ".bin".toList := by
  simp only [getModelPath, getModelsDir, pathJoin, List.append_assoc,
    List.cons_append]
  rfl

/-- C10: for every identifier that passes the catalog lookup (the only
way the temporary path is ever computed), the temporary download path
is the target path with `".tmp"` appended after its `".bin"`
extension — in particular it differs from the target path — and every
file action before the rename (creation of the temporary file, every
chunk write, the flush) targets exactly this temporary path. -/
theorem c10_temp_path_distinct (env : Env) (fs0 : FS) (name : String)
    (m : ModelInfo)
    (hfind : getAvailableModels.find? (fun x => x.name == name) = some m) :
    tempPathOf env name = getModelPath env.dataDir name ++ ".tmp".toList ∧
      tempPathOf env name ≠ getModelPath env.dataDir name ∧
      (∀ p c, DlAction.wrote p c ∈ (downloadModel env fs0 name).trace →
        p = tempPathOf env name) ∧
      (∀ p, DlAction.flushed p ∈ (downloadModel env fs0 name).trace →
        p = tempPathOf env name) ∧
      (∀ p, DlAction.createFile p ∈ (downloadModel env fs0 name).trace →
        p = tempPathOf env name) := by
  have h1 : tempPathOf env name =
      getModelPath env.dataDir name ++ ".tmp".toList := by
    unfold tempPathOf
    exact temp_path_eq env.dataDir name (catalog_name_no_slash name m hfind)
  have h2 : tempPathOf env name ≠ getModelPath env.dataDir name := by
    rw [h1]
    exact Ne.symm (ne_append_tmp _)
  refine ⟨h1, h2, ?_⟩
  rcases downloadModel_branches env fs0 name with
    ⟨_, _, htr⟩ | ⟨m2, S, _, hS, _, _, htr⟩ | ⟨m2, _, _, _, _, htr⟩
  · refine ⟨?_, ?_, ?_⟩ <;> intro p c0h <;> try intro hmem
    all_goals {
      first
      | (rcases htr with h | h | ⟨m3, _, h⟩ <;> rw [h] at hmem <;> simp at hmem)
      | (rcases htr with h | h | ⟨m3, _, h⟩ <;> rw [h] at c0h <;> simp at c0h)
    }
  · have hwtr : (dlWriteLoop env name).1 =
        mkTrace (tempPathOf env name) (env.contentLength.getD 0) 0
          (okChunks env.chunks) := by
      unfold dlWriteLoop
      exact writeLoop_trace _ _ env.chunks 0 []
    refine ⟨?_, ?_, ?_⟩
    · intro p c hmem
      rw [htr, hwtr] at hmem
      simp only [List.mem_cons] at hmem
      rcases hmem with h | h | h | h
      · exact absurd h (by simp)
      · exact absurd h (by simp)
      · exact absurd h (by simp)
      · rcases List.mem_append.mp h with h | h
        · exact mkTrace_wrote_mem _ _ _ _ _ _ h
        · rcases hS with hS | hS <;> rw [hS] at h <;> simp at h
    · intro p hmem
      rw [htr, hwtr] at hmem
      simp only [List.mem_cons] at hmem
      rcases hmem with h | h | h | h
      · exact absurd h (by simp)
      · exact absurd h (by simp)
      · exact absurd h (by simp)
      · rcases List.mem_append.mp h with h | h
        · exact absurd h (mkTrace_flushed_not_mem _ _ _ _ _)
        · rcases hS with hS | hS <;> rw [hS] at h <;> simp at h
          exact h
    · intro p hmem
      rw [htr, hwtr] at hmem
      simp only [List.mem_cons] at hmem
      rcases hmem with h | h | h | h
      · exact absurd h (by simp)
      · exact absurd h (by simp)
      · exact DlAction.createFile.inj h
      · rcases List.mem_append.mp h with h | h
        · exact absurd h (mkTrace_createFile_not_mem _ _ _ _ _)
        · rcases hS with hS | hS <;> rw [hS] at h <;> simp at h
  · have hwtr : (dlWriteLoop env name).1 =
        mkTrace (tempPathOf env name) (env.contentLength.getD 0) 0
          (okChunks env.chunks) := by
      unfold dlWriteLoop
      exact writeLoop_trace _ _ env.chunks 0 []
    refine ⟨?_, ?_, ?_⟩
    · intro p c hmem
      rw [htr, hwtr] at hmem
      simp only [List.mem_cons] at hmem
      rcases hmem with h | h | h | h
      · exact absurd h (by simp)
      · exact absurd h (by simp)
      · exact absurd h (by simp)
      · rcases List.mem_append.mp h with h | h
        · exact mkTrace_wrote_mem _ _ _ _ _ _ h
        · simp at h
    · intro p hmem
      rw [htr, hwtr] at hmem
      simp only [List.mem_cons] at hmem
      rcases hmem with h | h | h | h
      · exact absurd h (by simp)
      · exact absurd h (by simp)
      · exact absurd h (by simp)
      · rcases List.mem_append.mp h with h | h
        · exact absurd h (mkTrace_flushed_not_mem _ _ _ _ _)
        · simp at h
          exact h
    · intro p hmem
      rw [htr, hwtr] at hmem
      simp only [List.mem_cons] at hmem
      rcases hmem with h | h | h | h
      · exact absurd h (by simp)
      · exact absurd h (by simp)
      · exact DlAction.createFile.inj h
      · rcases List.mem_append.mp h with h | h
        · exact absurd h (mkTrace_createFile_not_mem _ _ _ _ _)
        · simp at h

/-- Replacement of the declared content length, all other oracles and
inputs unchanged. -/
def Env.setCL (env : Env) (k : Option Nat) : Env :=
  Env.mk env.dataDir env.dirCreate env.connect env.status k env.fileCreate
    env.chunks env.flush env.rename

/-- Returned value and final filesystem of `download_model` do not
depend on the declared content length: it only feeds the progress
callback.  In particular an absent content length is not an error. -/
theorem downloadModel_cl_irrel (env : Env) (fs0 : FS) (name : String)
    (k : Option Nat) :
    (downloadModel (Env.setCL env k) fs0 name).result =
        (downloadModel env fs0 name).result ∧
      (downloadModel (Env.setCL env k) fs0 name).fs =
        (downloadModel env fs0 name).fs := by
  simp only [downloadModel, Env.setCL]
  cases hfind : getAvailableModels.find? (fun m => m.name == name) with
  | none => exact ⟨rfl, rfl⟩
  | some m =>
      cases env.dirCreate with
      | some e => exact ⟨rfl, rfl⟩
      | none =>
          cases env.connect with
          | some e => exact ⟨rfl, rfl⟩
          | none =>
              cases statusIsSuccess env.status with
              | false => exact ⟨rfl, rfl⟩
              | true =>
                  cases env.fileCreate with
                  | some e => exact ⟨rfl, rfl⟩
                  | none =>
                      have h2 := writeLoop_total_irrel
                        (rustWithExtension (getModelPath env.dataDir name)
                          "bin.tmp".toList)
                        (k.getD 0) (env.contentLength.getD 0) env.chunks 0 []
                      have h22 := congrArg Prod.snd h2
                      have h21 := congrArg Prod.fst h2
                      simp only [Prod.fst, Prod.snd] at h22 h21
                      rw [h22, h21]
                      cases herr : (writeLoop
                          (rustWithExtension (getModelPath env.dataDir name)
                            "bin.tmp".toList)
                          (env.contentLength.getD 0) env.chunks 0 []).2.2 with
                      | some e => exact ⟨rfl, rfl⟩
                      | none =>
                          cases env.flush with
                          | some e => exact ⟨rfl, rfl⟩
                          | none =>
                              cases env.rename with
                              | some e => exact ⟨rfl, rfl⟩
                              | none => exact ⟨rfl, rfl⟩

/-- C8: when the server declares no content length the download treats
the total as 0 for the whole transfer, not as an error: the guarded
percentage computation of the progress callback returns 0 whenever the
total is 0 (the division is never evaluated, so no division-by-zero
failure is possible), every progress callback of such a transfer
carries total 0, and the download's returned value never depends on
the declared content length at all. -/
theorem c8_percent_zero_when_total_unknown (env : Env) (fs0 : FS)
    (name : String) (dl : Nat) (h : env.contentLength = none) :
    percentOf dl 0 = 0 ∧
      (∀ b t, DlAction.progress b t ∈ (downloadModel env fs0 name).trace →
        t = 0) ∧
      (∀ k, (downloadModel (Env.setCL env k) fs0 name).result =
        (downloadModel env fs0 name).result) := by
  refine ⟨by simp [percentOf], ?_,
    fun k => (downloadModel_cl_irrel env fs0 name k).1⟩
  intro b t hmem
  rcases downloadModel_branches env fs0 name with
    ⟨_, _, htr⟩ | ⟨m, S, _, hS, _, _, htr⟩ | ⟨m, _, _, _, _, htr⟩
  · rcases htr with h2 | h2 | ⟨m, _, h2⟩ <;> rw [h2] at hmem <;> simp at hmem
  · have hwtr : (dlWriteLoop env name).1 =
        mkTrace (tempPathOf env name) (env.contentLength.getD 0) 0
          (okChunks env.chunks) := by
      unfold dlWriteLoop
      exact writeLoop_trace _ _ env.chunks 0 []
    rw [htr, hwtr] at hmem
    simp only [List.mem_cons] at hmem
    rcases hmem with h2 | h2 | h2 | h2
    · exact absurd h2 (by simp)
    · exact absurd h2 (by simp)
    · exact absurd h2 (by simp)
    · rcases List.mem_append.mp h2 with h2 | h2
      · have := mkTrace_progress_total_mem (tempPathOf env name)
          (env.contentLength.getD 0) (okChunks env.chunks) 0 b t h2
        rw [this, h]
        rfl
      · rcases hS with hS | hS <;> rw [hS] at h2 <;> simp at h2
  · have hwtr : (dlWriteLoop env name).1 =
        mkTrace (tempPathOf env name) (env.contentLength.getD 0) 0
          (okChunks env.chunks) := by
      unfold dlWriteLoop
      exact writeLoop_trace _ _ env.chunks 0 []
    rw [htr, hwtr] at hmem
    simp only [List.mem_cons] at hmem
    rcases hmem with h2 | h2 | h2 | h2
    · exact absurd h2 (by simp)
    · exact absurd h2 (by simp)
    · exact absurd h2 (by simp)
    · rcases List.mem_append.mp h2 with h2 | h2
      · have := mkTrace_progress_total_mem (tempPathOf env name)
          (env.contentLength.getD 0) (okChunks env.chunks) 0 b t h2
        rw [this, h]
        rfl
      · simp at h2

theorem c8_percent_zero_when_total_unknown_witness :
    percentOf 5 0 = 0 ∧
      (∀ b t, DlAction.progress b t ∈ (downloadModel
        (Env.mk "/d".toList none none 200 none none
          [ChunkStep.chunk [7] none] none none) [] "tiny").trace → t = 0) ∧
      (∀ k, (downloadModel (Env.setCL
          (Env.mk "/d".toList none none 200 none none
            [ChunkStep.chunk [7] none] none none) k) [] "tiny").result =
        (downloadModel (Env.mk "/d".toList none none 200 none none
          [ChunkStep.chunk [7] none] none none) [] "tiny").result) :=
  c8_percent_zero_when_total_unknown
    (Env.mk "/d".toList none none 200 none none
      [ChunkStep.chunk [7] none] none none) [] "tiny" 5 rfl

theorem c10_temp_path_distinct_witness :
    tempPathOf (Env.mk "/d".toList none none 200 none none [] none none)
        "tiny" = getModelPath "/d".toList "tiny" ++ ".tmp".toList ∧
      tempPathOf (Env.mk "/d".toList none none 200 none none [] none none)
        "tiny" ≠ getModelPath "/d".toList "tiny" := by
  have h := c10_temp_path_distinct
    (Env.mk "/d".toList none none 200 none none [] none none) [] "tiny"
    (ModelInfo.mk "tiny" "Tiny" 75 "Fastest, lowest accuracy"
      "https://huggingface.co/ggerganov/whisper.cpp/resolve/main/ggml-tiny.bin")
    (by rfl)
  exact ⟨h.1, h.2.1⟩

theorem c4_atomic_commit_witness :
    fsGet (downloadModel (Env.mk "/d".toList none none 200 (some 3) none
        [ChunkStep.chunk [1, 2] none, ChunkStep.chunk [3] none] none none) []
        "tiny").fs (getModelPath "/d".toList "tiny") = some [1, 2, 3] ∧
      fsGet (downloadModel (Env.mk "/d".toList none none 200 (some 3) none
        [ChunkStep.chunk [1, 2] none, ChunkStep.chunk [3] none] none none) []
        "tiny").fs (tempPathOf (Env.mk "/d".toList none none 200 (some 3) none
        [ChunkStep.chunk [1, 2] none, ChunkStep.chunk [3] none] none none)
        "tiny") = none ∧
      fsGet (downloadModel (Env.mk "/d".toList none none 200 none none
        [ChunkStep.netErr "net down"] none none) [] "tiny").fs
        (getModelPath "/d".toList "tiny") = none := by
  refine ⟨?_, ?_, ?_⟩
  · exact ((c4_atomic_commit (Env.mk "/d".toList none none 200 (some 3) none
      [ChunkStep.chunk [1, 2] none, ChunkStep.chunk [3] none] none none) []
      "tiny").2 (getModelPath "/d".toList "tiny") rfl).2.1
  · exact ((c4_atomic_commit (Env.mk "/d".toList none none 200 (some 3) none
      [ChunkStep.chunk [1, 2] none, ChunkStep.chunk [3] none] none none) []
      "tiny").2 (getModelPath "/d".toList "tiny") rfl).2.2.2.1
  · exact (c4_atomic_commit (Env.mk "/d".toList none none 200 none none
      [ChunkStep.netErr "net down"] none none) [] "tiny").1
      "Error downloading: net down" rfl

theorem c5_progress_reporting_witness :
    progressValues (downloadModel (Env.mk "/d".toList none none 200 (some 3)
        none [ChunkStep.chunk [1, 2] none, ChunkStep.chunk [3] none] none
        none) [] "tiny").trace = [2, 3] ∧
      (progressValues (downloadModel (Env.mk "/d".toList none none 200 (some 3)
        none [ChunkStep.chunk [1, 2] none, ChunkStep.chunk [3] none] none
        none) [] "tiny").trace).getLast?.getD 0 =
        writtenBytes (downloadModel (Env.mk "/d".toList none none 200 (some 3)
          none [ChunkStep.chunk [1, 2] none, ChunkStep.chunk [3] none] none
          none) [] "tiny").trace := by
  have h := c5_progress_reporting (Env.mk "/d".toList none none 200 (some 3)
    none [ChunkStep.chunk [1, 2] none, ChunkStep.chunk [3] none] none none)
    [] "tiny"
  exact ⟨rfl, h.2.1⟩
